import Mathlib

/-!
# Verification of the uploader streaming pipeline

Shallow embedding of the Go file uploader (token-gated multipart upload,
bounded-buffer drain/serve pipelines, optional AES-CTR stream-cipher layer).

Modelling conventions:
* Bytes are `Nat` (values below 256 in practice; nothing here depends on the
  bound, XOR of two bytes is again a byte).
* An input stream (a `multipart.Part` or a file) is modelled by its content
  `content : List Nat` together with a read schedule `sched : List Nat`:
  the i-th successful `Read` call delivers `min (sched i + 1) space` bytes of
  the remaining content (at least one byte, matching `multipart.Part.Read`,
  which returns `n > 0` or an error/EOF, never `(0, nil)`), where `space` is
  the size of the destination slice.  Once the content is exhausted a read
  returns `(0, io.EOF)`.  A schedule with `content.length ≤ sched.length`
  is long enough to drain the whole content, since every read delivers at
  least one byte.
* Where a claim concerns read errors, the schedule entries are
  `Option Nat`, with `none` standing for a read returning a non-nil,
  non-EOF error.
-/

/-- The read loop of `valCheck` (uploader.go:115-124): repeatedly read into
`buffer[totalBytesRead:]` until the buffer (size `N`) is full or the read
returns `io.EOF`.  The accumulator `acc` holds the bytes placed in the buffer
so far (`totalBytesRead = acc.length`).  Each read delivers
`min (s+1) (N - acc.length)` bytes of the remaining content; when the content
is exhausted the read returns `(0, io.EOF)` and the loop breaks. -/
def valCheckLoop (N : Nat) (sched : List Nat) (content acc : List Nat) : List Nat :=
  match sched with
  | [] => acc
  | s :: rest =>
    if N ≤ acc.length then acc
    else if content.isEmpty then acc
    else valCheckLoop N rest (content.drop (min (s + 1) (N - acc.length)))
           (acc ++ content.take (min (s + 1) (N - acc.length)))

/-- The comparison loop of `valCheck` (uploader.go:131-136): scan the
positions of `refVal`, failing at the first byte that differs from the
buffer contents. -/
def bytesMatch : List Nat → List Nat → Bool
  | [], _ => true
  | _ :: _, [] => false
  | r :: rs, b :: bs => r == b && bytesMatch rs bs

/-- `valCheck` (uploader.go:112-140): fill the bounded buffer from the
checked stream, then succeed iff the number of bytes read equals
`refVal.length` and the bytes match `refVal` pointwise. -/
def valCheck (N : Nat) (refVal sched content : List Nat) : Bool :=
  let totalRead := valCheckLoop N sched content []
  if totalRead.length = refVal.length then bytesMatch refVal totalRead else false

/-- `checkUploadCookie` (uploader.go:142-147): run `valCheck` with a
fresh buffer of size `BufferSize` against the configured cookie bytes. -/
def checkUploadCookieVal (bufferSize : Nat) (uploadCookie : List Nat)
    (sched content : List Nat) : Bool :=
  valCheck bufferSize uploadCookie sched content

theorem take_drop_take (C : List Nat) (k m : Nat) (hkm : k ≤ m) :
    C.take k ++ (C.drop k).take (m - (C.take k).length) = C.take m := by
  rcases le_or_lt k C.length with hk | hk
  · have hlen : (C.take k).length = k := by
      simp [List.length_take, Nat.min_eq_left hk]
    rw [hlen, ← List.take_add]
    congr 1
    omega
  · have h1 : C.take k = C := List.take_of_length_le (le_of_lt hk)
    have h2 : C.drop k = [] := List.drop_eq_nil_of_le (le_of_lt hk)
    have h3 : C.take m = C := List.take_of_length_le (by omega)
    simp [h1, h2, h3]

/-- With a schedule long enough to drain the content, the read loop of
`valCheck` reads exactly the first `N - acc.length` remaining bytes,
independently of the chunking. -/
theorem valCheckLoop_covered (N : Nat) :
    ∀ (sched content acc : List Nat), content.length ≤ sched.length →
      valCheckLoop N sched content acc = acc ++ content.take (N - acc.length) := by
  intro sched
  induction sched with
  | nil =>
    intro content acc hcov
    have : content = [] := List.eq_nil_of_length_eq_zero (by simpa using hcov)
    simp [valCheckLoop, this]
  | cons s rest ih =>
    intro content acc hcov
    rw [valCheckLoop]
    by_cases hfull : N ≤ acc.length
    · simp [hfull, Nat.sub_eq_zero_of_le hfull]
    · simp only [if_neg hfull]
      by_cases hemp : content.isEmpty
      · have : content = [] := by simpa [List.isEmpty_iff] using hemp
        simp [hemp, this]
      · simp only [if_neg hemp]
        have hne : content ≠ [] := by simpa [List.isEmpty_iff] using hemp
        set k := min (s + 1) (N - acc.length) with hkdef
        have hk1 : 1 ≤ k := by
          have : 1 ≤ N - acc.length := by omega
          omega
        have hcov' : (content.drop k).length ≤ rest.length := by
          have hlen : 0 < content.length := List.length_pos_of_ne_nil hne
          simp only [List.length_drop]
          simp only [List.length_cons] at hcov
          omega
        rw [ih _ _ hcov']
        have hkm : k ≤ N - acc.length := Nat.min_le_right _ _
        have harith : N - (acc ++ content.take k).length
            = (N - acc.length) - (content.take k).length := by
          simp only [List.length_append, List.length_take]
          omega
        rw [harith, List.append_assoc, take_drop_take content k (N - acc.length) hkm]

/-- The read loop never accumulates more than `N` bytes. -/
theorem valCheckLoop_length_le (N : Nat) :
    ∀ (sched content acc : List Nat), acc.length ≤ N →
      (valCheckLoop N sched content acc).length ≤ N := by
  intro sched
  induction sched with
  | nil => intro content acc h; simpa [valCheckLoop] using h
  | cons s rest ih =>
    intro content acc h
    rw [valCheckLoop]
    by_cases hfull : N ≤ acc.length
    · simpa [hfull] using h
    · simp only [if_neg hfull]
      by_cases hemp : content.isEmpty
      · simpa [hemp] using h
      · simp only [if_neg hemp]
        apply ih
        simp only [List.length_append, List.length_take]
        have : min (s + 1) (N - acc.length) ≤ N - acc.length := Nat.min_le_right _ _
        omega

theorem bytesMatch_iff : ∀ (a b : List Nat), a.length = b.length →
    (bytesMatch a b = true ↔ a = b) := by
  intro a
  induction a with
  | nil =>
    intro b hb
    have : b = [] := List.eq_nil_of_length_eq_zero hb.symm
    simp [bytesMatch, this]
  | cons x xs ih =>
    intro b hb
    cases b with
    | nil => simp at hb
    | cons y ys =>
      simp only [List.length_cons, Nat.succ.injEq] at hb
      simp [bytesMatch, Bool.and_eq_true, beq_iff_eq, ih ys hb]

/-- The bytes of the configured upload cookie `"y0UMayUpL0Ad"`
(uploader.go:342). -/
def uploadCookieBytes : List Nat :=
  [121, 48, 85, 77, 97, 121, 85, 112, 76, 48, 65, 100]

/-- The configured buffer size, `1024 * 8` (uploader.go:318). -/
def configuredBufferSize : Nat := 1024 * 8

/-- C1: the Token Verifier, run with buffer size `N` against secret `S`
(with the configured relationship `0 < S.length < N`, satisfied by the
actual configuration: a 12-byte cookie and an 8192-byte buffer), over any
stream delivered in arbitrary chunks (schedule long enough to drain the
content), returns `true` iff the stream content equals `S` byte for byte;
in particular it returns `false` on empty content, on every strict prefix
of `S`, on `S` followed by extra bytes, and on any single-byte difference. -/
theorem C1_valCheck_exact_match (N : Nat) (S sched content : List Nat)
    (hS : S ≠ []) (hSN : S.length < N) (hcov : content.length ≤ sched.length) :
    (valCheck N S sched content = true ↔ content = S)
    ∧ (content = [] → valCheck N S sched content = false)
    ∧ (∀ k, k < S.length → content = S.take k → valCheck N S sched content = false)
    ∧ (∀ extra, extra ≠ [] → content = S ++ extra → valCheck N S sched content = false)
    ∧ (∀ i, i < S.length → content.length = S.length → content.get? i ≠ S.get? i →
        valCheck N S sched content = false) := by
  have hread : valCheckLoop N sched content [] = content.take N := by
    simpa using valCheckLoop_covered N sched content [] hcov
  have hval : valCheck N S sched content
      = if (content.take N).length = S.length then bytesMatch S (content.take N)
        else false := by
    simp [valCheck, hread]
  have hiff : valCheck N S sched content = true ↔ content = S := by
    rw [hval]
    constructor
    · intro htrue
      by_cases hlen : (content.take N).length = S.length
      · rw [if_pos hlen] at htrue
        have heq : S = content.take N := (bytesMatch_iff S (content.take N) hlen.symm).mp htrue
        by_cases hcN : content.length ≤ N
        · rw [List.take_of_length_le hcN] at heq
          exact heq.symm
        · exfalso
          have : (content.take N).length = N := by
            simp [List.length_take]
            omega
          omega
      · rw [if_neg hlen] at htrue
        exact absurd htrue (by simp)
    · intro hc
      subst hc
      have htk : content.take N = content := List.take_of_length_le (le_of_lt hSN)
      rw [htk, if_pos rfl]
      exact (bytesMatch_iff content content rfl).mpr rfl
  have hfalse : content ≠ S → valCheck N S sched content = false := by
    intro hne
    rcases Bool.eq_false_or_eq_true (valCheck N S sched content) with h | h
    · exact absurd (hiff.mp h) hne
    · exact h
  refine ⟨hiff, ?_, ?_, ?_, ?_⟩
  · intro hc
    apply hfalse
    subst hc
    exact fun h => hS h.symm
  · intro k hk hc
    apply hfalse
    intro h
    have hlen : content.length = k := by
      rw [hc]
      simp [List.length_take]
      omega
    have : content.length = S.length := by rw [h]
    omega
  · intro extra hextra hc
    apply hfalse
    intro h
    have hlen : content.length = S.length + extra.length := by
      rw [hc, List.length_append]
    have hpos : 0 < extra.length := List.length_pos_of_ne_nil hextra
    have : content.length = S.length := by rw [h]
    omega
  · intro i _ _ hget
    apply hfalse
    intro h
    exact hget (by rw [h])

/-- Witness for C1 at the shipped configuration: buffer size 8192, the
12-byte cookie, the whole cookie delivered in one read. -/
theorem C1_valCheck_exact_match_witness :
    valCheck configuredBufferSize uploadCookieBytes (List.replicate 12 11)
      uploadCookieBytes = true :=
  (C1_valCheck_exact_match configuredBufferSize uploadCookieBytes
    (List.replicate 12 11) uploadCookieBytes (by decide) (by decide)
    (by decide)).1.mpr rfl

/-- C8: if the secret is longer than the buffer, `valCheck` returns `false`
on every stream whatsoever: at most `N` bytes are ever read, so the
length test `totalBytesRead == len(refVal)` can never pass. -/
theorem C8_secret_longer_than_buffer (N : Nat) (S sched content : List Nat)
    (h : N < S.length) : valCheck N S sched content = false := by
  have hle : (valCheckLoop N sched content []).length ≤ N :=
    valCheckLoop_length_le N sched content [] (by simp)
  have hne : (valCheckLoop N sched content []).length ≠ S.length := by omega
  simp [valCheck, hne]

/-- Witness for C8: a 3-byte secret against a 2-byte buffer, stream equal to
the secret. -/
theorem C8_secret_longer_than_buffer_witness :
    valCheck 2 [5, 6, 7] [2, 2, 2] [5, 6, 7] = false :=
  C8_secret_longer_than_buffer 2 [5, 6, 7] [2, 2, 2] [5, 6, 7] (by decide)

/-- One result of a `Read` call, as seen by `valCheck`'s loop, which only
inspects `bytesRead` and whether `err == io.EOF`:
`chunk data` is a read returning `(data.length, err)` with `err ≠ io.EOF`
(including `err = nil`); `eofSig` is a read returning `(0, io.EOF)`.
Negative `bytesRead` cannot occur (io.Reader contract). -/
inductive ReadResult where
  | chunk (data : List Nat)
  | eofSig
deriving DecidableEq

/-- The read loop of `valCheck` (uploader.go:115-124) over an infinite
stream of read results, executed with bounded fuel: `none` means the loop
is still running after `fuel` iterations.  Each delivered chunk is capped
at the remaining buffer space (`Read` never returns more than the size of
the slice it is given).  The loop breaks only when the buffer is full or a
read returns `io.EOF`; a read returning a non-EOF error does NOT break. -/
def valCheckFuel (N : Nat) (stream : Nat → ReadResult) :
    Nat → Nat → List Nat → Option (List Nat)
  | 0, _, _ => none
  | fuel + 1, i, acc =>
    if N ≤ acc.length then some acc
    else
      match stream i with
      | ReadResult.eofSig => some acc
      | ReadResult.chunk data =>
          valCheckFuel N stream fuel (i + 1) (acc ++ data.take (N - acc.length))

/-- A stream that persistently returns `(0, err)` with a non-EOF error:
exactly what `multipart.Part.Read` does forever after the request body is
truncated mid-part (every subsequent read yields
`(0, io.ErrUnexpectedEOF)`). -/
def persistentErrStream : Nat → ReadResult := fun _ => ReadResult.chunk []

/-- C9 (code bug): on a stream that persistently returns `(0, err)` with a
non-EOF error, `valCheck`'s read loop never exits — no amount of fuel
finishes it, because the loop breaks only on `bytesRead < 0 || err == io.EOF`
and the buffer never fills.  The claim (and spec §4.2) says the loop
terminates for every stream of read results, including errors. -/
theorem C9_valCheck_loop_spins_on_error (N : Nat) (hN : 0 < N) :
    ∀ (fuel i : Nat), valCheckFuel N persistentErrStream fuel i [] = none := by
  intro fuel
  induction fuel with
  | zero => intro i; rfl
  | succ fuel ih =>
    intro i
    have hfull : ¬ N ≤ ([] : List Nat).length := by simp; omega
    simp only [valCheckFuel, if_neg hfull, persistentErrStream, List.take_nil,
      List.append_nil]
    exact ih (i + 1)

/-- Witness for C9's bug theorem: with an 8-byte buffer the loop is still
running after 5 iterations of pure error reads. -/
theorem C9_valCheck_loop_spins_on_error_witness :
    valCheckFuel 8 persistentErrStream 5 0 [] = none :=
  C9_valCheck_loop_spins_on_error 8 (by decide) 5 0

/-- One `bufio.Writer.Write` call with buffer capacity `cap`: if the bytes
fit in the available space they are only buffered; otherwise the writer
flushes (writing a large chunk directly to the file when its own buffer is
empty) and buffers the remainder.  State is `(file, buf)`: bytes already in
the OS file, bytes pending in the bufio buffer.  (File writes are assumed to
succeed; `bufio` error latching is not modelled.) -/
def bufioWrite (cap : Nat) (fb : List Nat × List Nat) (p : List Nat) :
    List Nat × List Nat :=
  if p.length ≤ cap - fb.2.length then (fb.1, fb.2 ++ p)
  else if fb.2.length = 0 then (fb.1 ++ p, [])
  else
    let fill := cap - fb.2.length
    if (p.drop fill).length ≤ cap then
      (fb.1 ++ fb.2 ++ p.take fill, p.drop fill)
    else
      (fb.1 ++ fb.2 ++ p.take fill ++ p.drop fill, [])

/-- A `bufio` write never loses bytes: file plus pending buffer always holds
everything written so far, in order. -/
theorem bufioWrite_join (cap : Nat) (fb : List Nat × List Nat) (p : List Nat) :
    (bufioWrite cap fb p).1 ++ (bufioWrite cap fb p).2 = fb.1 ++ fb.2 ++ p := by
  unfold bufioWrite
  by_cases h1 : p.length ≤ cap - fb.2.length
  · simp [h1, List.append_assoc]
  · simp only [if_neg h1]
    by_cases h2 : fb.2.length = 0
    · have : fb.2 = [] := List.eq_nil_of_length_eq_zero h2
      simp [h2, this]
    · simp only [if_neg h2]
      split
      · rw [List.append_assoc, List.take_append_drop]
      · simp [List.append_assoc]

/-- How `serveHTTPUploadPOSTDrain` (uploader.go:38-77) returned:
on `createError`, `os.Create` failed and the function returned after a 500
without reading the part; on `readError`, a mid-stream read returned a
non-EOF error and the function returned after a 500 without flushing;
on `eofOk`, the read loop broke on `io.EOF` and `drain.Flush()` ran. -/
inductive DrainExit where
  | createError
  | readError
  | eofOk
deriving DecidableEq

/-- State of the destination sink when `serveHTTPUploadPOSTDrain` returns:
`file` is what is on disk, `buf` is what was still sitting in the bufio
buffer (lost unless flushed), `closed` records that the deferred
`drainTo.Close()` ran. -/
structure DrainState where
  file : List Nat
  buf : List Nat
  closed : Bool
  exit : DrainExit
deriving DecidableEq

/-- The read/write loop of `serveHTTPUploadPOSTDrain` (uploader.go:54-70):
read up to `N` bytes from the part, break on `io.EOF`, return with a 500 on
any other read error, otherwise write the chunk to the bufio writer.
The schedule entry `none` is a read returning a non-EOF error; `some s`
delivers `min (s+1) N` bytes of the remaining content (at least one byte:
`multipart.Part.Read` returns `n > 0` or an error/EOF, so the code's
`if lastBytesRead > 0` guard is always taken on a successful read). -/
def drainLoop (N cap : Nat) (sched : List (Option Nat)) (content : List Nat)
    (fb : List Nat × List Nat) : (List Nat × List Nat) × DrainExit :=
  if content.isEmpty then (fb, DrainExit.eofOk)
  else
    match sched with
    | [] => (fb, DrainExit.eofOk)
    | none :: _ => (fb, DrainExit.readError)
    | some s :: rest =>
        drainLoop N cap rest (content.drop (min (s + 1) N))
          (bufioWrite cap fb (content.take (min (s + 1) N)))

/-- `serveHTTPUploadPOSTDrain` (uploader.go:38-77): create the destination
(500 and return if that fails), run the drain loop through a
`bufio.Writer` of capacity `cap`, and call `drain.Flush()` only after a
normal end-of-stream; the deferred `drainTo.Close()` runs on every path. -/
def serveHTTPUploadPOSTDrain (N cap : Nat) (createFails : Bool)
    (sched : List (Option Nat)) (content : List Nat) : DrainState :=
  if createFails then
    { file := [], buf := [], closed := true, exit := DrainExit.createError }
  else
    let r := drainLoop N cap sched content ([], [])
    match r.2 with
    | DrainExit.eofOk =>
        { file := r.1.1 ++ r.1.2, buf := [], closed := true, exit := DrainExit.eofOk }
    | e => { file := r.1.1, buf := r.1.2, closed := true, exit := e }

/-- With an error-free schedule long enough to drain the content, the drain
loop ends in `eofOk` and the sink pipeline (file plus bufio buffer) holds
exactly the prior bytes followed by the whole content. -/
theorem drainLoop_covered (N cap : Nat) (hN : 0 < N) :
    ∀ (sched : List Nat) (content : List Nat) (fb : List Nat × List Nat),
      content.length ≤ sched.length →
      (drainLoop N cap (sched.map some) content fb).2 = DrainExit.eofOk ∧
      (drainLoop N cap (sched.map some) content fb).1.1
          ++ (drainLoop N cap (sched.map some) content fb).1.2
        = fb.1 ++ fb.2 ++ content := by
  intro sched
  induction sched with
  | nil =>
    intro content fb hcov
    have : content = [] := List.eq_nil_of_length_eq_zero (by simpa using hcov)
    simp [drainLoop, this]
  | cons s rest ih =>
    intro content fb hcov
    by_cases hemp : content.isEmpty
    · have : content = [] := by simpa [List.isEmpty_iff] using hemp
      simp [drainLoop, this]
    · have hne : content ≠ [] := by simpa [List.isEmpty_iff] using hemp
      have hpos : 0 < content.length := List.length_pos_of_ne_nil hne
      rw [List.map_cons, drainLoop]
      simp only [if_neg hemp]
      have hk1 : 1 ≤ min (s + 1) N := by omega
      have hcov' : (content.drop (min (s + 1) N)).length ≤ rest.length := by
        simp only [List.length_drop]
        simp only [List.length_cons] at hcov
        omega
      obtain ⟨hexit, hjoin⟩ := ih (content.drop (min (s + 1) N))
        (bufioWrite cap fb (content.take (min (s + 1) N))) hcov'
      refine ⟨hexit, ?_⟩
      rw [hjoin, bufioWrite_join, List.append_assoc, List.append_assoc,
        List.append_assoc, List.take_append_drop]

/-- The loop of `serveHTTPDownloadGET` (uploader.go:251-267): read the
stored object in chunks of at most `N` bytes, break on `io.EOF`, return
(leaving already-sent bytes in the response) on any other read error, and
write each non-empty chunk straight to the response writer `w`. -/
def downloadLoop (N : Nat) (sched : List (Option Nat)) (content out : List Nat) :
    List Nat :=
  if content.isEmpty then out
  else
    match sched with
    | [] => out
    | none :: _ => out
    | some s :: rest =>
        downloadLoop N rest (content.drop (min (s + 1) N))
          (out ++ content.take (min (s + 1) N))

/-- With an error-free schedule long enough to drain the stored object, the
download loop writes exactly the object's bytes to the response, in order. -/
theorem downloadLoop_covered (N : Nat) (hN : 0 < N) :
    ∀ (sched : List Nat) (content out : List Nat),
      content.length ≤ sched.length →
      downloadLoop N (sched.map some) content out = out ++ content := by
  intro sched
  induction sched with
  | nil =>
    intro content out hcov
    have : content = [] := List.eq_nil_of_length_eq_zero (by simpa using hcov)
    simp [downloadLoop, this]
  | cons s rest ih =>
    intro content out hcov
    by_cases hemp : content.isEmpty
    · have : content = [] := by simpa [List.isEmpty_iff] using hemp
      simp [downloadLoop, this]
    · have hne : content ≠ [] := by simpa [List.isEmpty_iff] using hemp
      have hpos : 0 < content.length := List.length_pos_of_ne_nil hne
      rw [List.map_cons, downloadLoop]
      simp only [if_neg hemp]
      have hcov' : (content.drop (min (s + 1) N)).length ≤ rest.length := by
        simp only [List.length_drop]
        simp only [List.length_cons] at hcov
        omega
      rw [ih _ _ hcov', List.append_assoc, List.take_append_drop]

/-- Counterexample to C5: buffer size 8, bufio capacity 4, one successful
1-byte read followed by a mid-stream read error.  The drain returns on the
read-error path with the byte still sitting in the bufio buffer: the file
is empty, so the sink was NOT flushed on this exit path (the buffered byte
is dropped), although the deferred close did run. -/
theorem C5_counterexample :
    serveHTTPUploadPOSTDrain 8 4 false [some 0, none] [1, 2, 3, 4, 5]
        = { file := [], buf := [1], closed := true, exit := DrainExit.readError }
      ∧ (serveHTTPUploadPOSTDrain 8 4 false [some 0, none] [1, 2, 3, 4, 5]).file
          ≠ (serveHTTPUploadPOSTDrain 8 4 false [some 0, none] [1, 2, 3, 4, 5]).file
            ++ (serveHTTPUploadPOSTDrain 8 4 false [some 0, none] [1, 2, 3, 4, 5]).buf := by
  constructor
  · decide
  · decide

/-- C5 as amended: the destination sink is closed on every exit path (the
deferred `drainTo.Close()`), but flushed only on the normal end-of-stream
exit; on a create failure or a mid-stream read error no flush happens and
any bytes still in the bufio buffer are dropped. -/
theorem C5_amended_close_always_flush_on_eof (N cap : Nat) (createFails : Bool)
    (sched : List (Option Nat)) (content : List Nat) :
    (serveHTTPUploadPOSTDrain N cap createFails sched content).closed = true
    ∧ ((serveHTTPUploadPOSTDrain N cap createFails sched content).exit = DrainExit.eofOk →
        (serveHTTPUploadPOSTDrain N cap createFails sched content).buf = []) := by
  unfold serveHTTPUploadPOSTDrain
  by_cases hcf : createFails
  · simp [hcf]
  · simp only [if_neg hcf]
    rcases h : (drainLoop N cap sched content ([], [])).2 with _ | _ | _ <;> simp

/-- Witness for the amended C5 at a run that ends normally. -/
theorem C5_amended_witness :
    (serveHTTPUploadPOSTDrain 8 4 false [some 7] [9, 9]).closed = true
    ∧ ((serveHTTPUploadPOSTDrain 8 4 false [some 7] [9, 9]).exit = DrainExit.eofOk →
        (serveHTTPUploadPOSTDrain 8 4 false [some 7] [9, 9]).buf = []) :=
  C5_amended_close_always_flush_on_eof 8 4 false [some 7] [9, 9]

/-!
## The cipher revision (src/unnamed/part_001)

AES-CTR is a stream cipher: the (key, IV) pair determines a keystream, a
position-indexed sequence of bytes, and `XORKeyStream` XORs the data with
the keystream bytes at the stream's current position, advancing the
position by exactly the number of bytes processed.  The keystream is
modelled abstractly as `ks : Nat → Nat` (byte at each position); the same
(key, IV) on both paths means the same `ks` on both paths.
-/

/-- `cipher.Stream.XORKeyStream` on a stream positioned at `pos`: XOR each
byte with the keystream byte at its position. -/
def xorKeyStream (ks : Nat → Nat) : Nat → List Nat → List Nat
  | _, [] => []
  | pos, b :: bs => (b ^^^ ks pos) :: xorKeyStream ks (pos + 1) bs

theorem xorKeyStream_length (ks : Nat → Nat) :
    ∀ (pos : Nat) (l : List Nat), (xorKeyStream ks pos l).length = l.length := by
  intro pos l
  induction l generalizing pos with
  | nil => rfl
  | cons b bs ih => simp [xorKeyStream, ih]

theorem xorKeyStream_append (ks : Nat → Nat) :
    ∀ (a b : List Nat) (pos : Nat),
      xorKeyStream ks pos (a ++ b)
        = xorKeyStream ks pos a ++ xorKeyStream ks (pos + a.length) b := by
  intro a
  induction a with
  | nil => intro b pos; simp [xorKeyStream]
  | cons x xs ih =>
    intro b pos
    have harith : pos + (xs.length + 1) = pos + 1 + xs.length := by omega
    simp only [List.cons_append, xorKeyStream, List.append_eq, List.length_cons,
      harith, ih]

theorem xorKeyStream_involutive (ks : Nat → Nat) :
    ∀ (pos : Nat) (l : List Nat), xorKeyStream ks pos (xorKeyStream ks pos l) = l := by
  intro pos l
  induction l generalizing pos with
  | nil => rfl
  | cons b bs ih =>
    simp only [xorKeyStream, ih]
    rw [Nat.xor_assoc, Nat.xor_self, Nat.xor_zero]

/-- `CountingStreamWriter.Write` (part_001:55-65): XOR the source bytes with
the keystream at the current position into a scratch buffer, write the
scratch buffer to the sink, advance the keystream position by the bytes
processed.  State is `(position, sink bytes)`.  (Sink writes are assumed
complete; the `io.ErrShortWrite` branch is not modelled.) -/
def countingStreamWrite (ks : Nat → Nat) (st : Nat × List Nat) (src : List Nat) :
    Nat × List Nat :=
  (st.1 + src.length, st.2 ++ xorKeyStream ks st.1 src)

/-- A sequence of `CountingStreamWriter.Write` calls, one chunk at a time. -/
def writeChunks (ks : Nat → Nat) (st : Nat × List Nat) :
    List (List Nat) → Nat × List Nat
  | [] => st
  | c :: cs => writeChunks ks (countingStreamWrite ks st c) cs

theorem writeChunks_eq (ks : Nat → Nat) :
    ∀ (chunks : List (List Nat)) (st : Nat × List Nat),
      writeChunks ks st chunks
        = (st.1 + chunks.flatten.length, st.2 ++ xorKeyStream ks st.1 chunks.flatten) := by
  intro chunks
  induction chunks with
  | nil => intro st; simp [writeChunks, xorKeyStream]
  | cons c cs ih =>
    intro st
    rw [writeChunks, ih]
    simp only [countingStreamWrite, List.flatten_cons, List.length_append,
      List.append_assoc, xorKeyStream_append, Nat.add_assoc]

/-- The copy loop of `doCipherByReaderWriter` (part_001:75-89): `io.Copy`
with a buffer of capacity `cap` reading through a `CountingStreamReader`
(part_001:42-46), which fetches raw bytes from the underlying source and
XORs them in place with the keystream at the current position, advancing
it by the bytes received; `io.Copy` then writes them to the output. -/
def cipherCopyLoop (ks : Nat → Nat) (cap : Nat) (sched : List Nat)
    (content : List Nat) (pos : Nat) (out : List Nat) : List Nat :=
  if content.isEmpty then out
  else
    match sched with
    | [] => out
    | s :: rest =>
        cipherCopyLoop ks cap rest (content.drop (min (s + 1) cap))
          (pos + (content.take (min (s + 1) cap)).length)
          (out ++ xorKeyStream ks pos (content.take (min (s + 1) cap)))

/-- `doCipherByReaderWriter` (part_001:75-89): stream the whole input
through the keystream, starting at position 0 (a fresh CTR stream built
from (key, IV)). -/
def doCipherByReaderWriter (ks : Nat → Nat) (cap : Nat) (sched content : List Nat) :
    List Nat :=
  cipherCopyLoop ks cap sched content 0 []

theorem cipherCopyLoop_covered (ks : Nat → Nat) (cap : Nat) (hcap : 0 < cap) :
    ∀ (sched content : List Nat) (pos : Nat) (out : List Nat),
      content.length ≤ sched.length →
      cipherCopyLoop ks cap sched content pos out = out ++ xorKeyStream ks pos content := by
  intro sched
  induction sched with
  | nil =>
    intro content pos out hcov
    have : content = [] := List.eq_nil_of_length_eq_zero (by simpa using hcov)
    simp [cipherCopyLoop, this, xorKeyStream]
  | cons s rest ih =>
    intro content pos out hcov
    by_cases hemp : content.isEmpty
    · have : content = [] := by simpa [List.isEmpty_iff] using hemp
      simp [cipherCopyLoop, this, xorKeyStream]
    · have hne : content ≠ [] := by simpa [List.isEmpty_iff] using hemp
      have hpos : 0 < content.length := List.length_pos_of_ne_nil hne
      rw [cipherCopyLoop]
      simp only [if_neg hemp]
      have hcov' : (content.drop (min (s + 1) cap)).length ≤ rest.length := by
        simp only [List.length_drop]
        simp only [List.length_cons] at hcov
        omega
      rw [ih _ _ _ hcov', List.append_assoc, ← xorKeyStream_append,
        List.take_append_drop]

/-- `doCipherByReaderWriter` encrypts/decrypts the whole content with the
keystream from position 0, independently of the read chunking. -/
theorem doCipherByReaderWriter_covered (ks : Nat → Nat) (cap : Nat) (hcap : 0 < cap)
    (sched content : List Nat) (hcov : content.length ≤ sched.length) :
    doCipherByReaderWriter ks cap sched content = xorKeyStream ks 0 content := by
  rw [doCipherByReaderWriter, cipherCopyLoop_covered ks cap hcap sched content 0 [] hcov]
  rfl

/-- C7: the Cipher Transform is chunking-invariant.  Writing any chunk
sequence through the Decorated Writer produces on the sink exactly what a
single write of the concatenation produces (and the keystream position
advances by exactly the bytes processed); and the Decorated Reader side ---
the `doCipherByReaderWriter` copy loop --- produces the same output under
any two read chunkings that drain the content. -/
theorem C7_cipher_chunking_invariant :
    (∀ (ks : Nat → Nat) (st : Nat × List Nat) (chunks : List (List Nat)),
      writeChunks ks st chunks = countingStreamWrite ks st chunks.flatten)
    ∧ (∀ (ks : Nat → Nat) (cap : Nat) (s1 s2 content : List Nat),
        0 < cap → content.length ≤ s1.length → content.length ≤ s2.length →
        doCipherByReaderWriter ks cap s1 content
          = doCipherByReaderWriter ks cap s2 content) := by
  constructor
  · intro ks st chunks
    rw [writeChunks_eq, countingStreamWrite]
  · intro ks cap s1 s2 content hcap h1 h2
    rw [doCipherByReaderWriter_covered ks cap hcap s1 content h1,
      doCipherByReaderWriter_covered ks cap hcap s2 content h2]

/-- Witness for C7 at concrete chunkings: writer side on `[[1,2],[3]]`,
reader side on two different schedules of a 3-byte content. -/
theorem C7_cipher_chunking_invariant_witness :
    writeChunks (fun i => i + 3) (0, []) [[1, 2], [3]]
        = countingStreamWrite (fun i => i + 3) (0, []) [1, 2, 3]
    ∧ doCipherByReaderWriter (fun i => i + 3) 4 [0, 0, 0] [10, 20, 30]
        = doCipherByReaderWriter (fun i => i + 3) 4 [2, 2, 2] [10, 20, 30] :=
  ⟨C7_cipher_chunking_invariant.1 (fun i => i + 3) (0, []) [[1, 2], [3]],
   C7_cipher_chunking_invariant.2 (fun i => i + 3) 4 [0, 0, 0] [2, 2, 2] [10, 20, 30]
     (by decide) (by decide) (by decide)⟩

/-- C2: round-trip identity.  For every byte sequence `B`, every upload
chunking `s1` and every download chunking `s2` (schedules long enough to
drain their streams; each read is capped at the buffer size), draining `B`
to storage and serving the stored object back yields exactly `B`:
(a) without the cipher (uploader.go), via `serveHTTPUploadPOSTDrain`
followed by the `serveHTTPDownloadGET` loop, and (b) with the cipher
(part_001), via `doCipherByReaderWriter` on both paths with the same
keystream, i.e. the same (key, IV). -/
theorem C2_upload_download_round_trip (N cap : Nat) (hN : 0 < N) (hcap : 0 < cap)
    (B s1 s2 : List Nat) (h1 : B.length ≤ s1.length) (h2 : B.length ≤ s2.length) :
    (downloadLoop N (s2.map some)
        (serveHTTPUploadPOSTDrain N cap false (s1.map some) B).file [] = B)
    ∧ (∀ ks : Nat → Nat,
        doCipherByReaderWriter ks cap s2 (doCipherByReaderWriter ks cap s1 B) = B) := by
  constructor
  · obtain ⟨hexit, hjoin⟩ := drainLoop_covered N cap hN s1 B ([], []) h1
    have hfile : (serveHTTPUploadPOSTDrain N cap false (s1.map some) B).file = B := by
      rw [serveHTTPUploadPOSTDrain]
      simp only [if_neg (Bool.false_ne_true)]
      rcases hr : (drainLoop N cap (s1.map some) B ([], [])).2 with _ | _ | _
      · rw [hr] at hexit; exact absurd hexit (by simp)
      · rw [hr] at hexit; exact absurd hexit (by simp)
      · simpa using hjoin
    rw [hfile]
    simpa using downloadLoop_covered N hN s2 B [] h2
  · intro ks
    have hlen1 : (doCipherByReaderWriter ks cap s1 B).length ≤ s2.length := by
      rw [doCipherByReaderWriter_covered ks cap hcap s1 B h1, xorKeyStream_length]
      exact h2
    rw [doCipherByReaderWriter_covered ks cap hcap s2 _ hlen1,
      doCipherByReaderWriter_covered ks cap hcap s1 B h1,
      xorKeyStream_involutive]

/-- Witness for C2: a 5-byte sequence, uneven upload chunking, different
download chunking, with buffer size 4. -/
theorem C2_upload_download_round_trip_witness :
    (downloadLoop 4 ([2, 2, 2, 2, 2].map some)
        (serveHTTPUploadPOSTDrain 4 3 false ([1, 0, 9, 0, 0].map some)
          [10, 20, 30, 40, 50]).file [] = [10, 20, 30, 40, 50])
    ∧ (∀ ks : Nat → Nat,
        doCipherByReaderWriter ks 4 [2, 2, 2, 2, 2]
            (doCipherByReaderWriter ks 4 [1, 0, 9, 0, 0] [10, 20, 30, 40, 50])
          = [10, 20, 30, 40, 50]) :=
  C2_upload_download_round_trip 4 3 (by decide) (by decide)
    [10, 20, 30, 40, 50] [1, 0, 9, 0, 0] [2, 2, 2, 2, 2] (by decide) (by decide)

/-!
## The session orchestrator (`serveHTTPUploadPOST`, uploader.go:167-225)
-/

/-- The configuration fields of the `uploader` struct consumed by the
orchestrator (uploader.go:23-30); the cookie is kept as its byte slice
(`[]byte(h.UploadCookie)`, uploader.go:145). -/
structure Uploader where
  HomeBucket : String
  UploadCookie : List Nat
  BufferSize : Nat
deriving DecidableEq

/-- One `multipart.Part` as the orchestrator sees it: its form-field name,
its (possibly empty) file name, its stream content, plus how that stream
behaves when read — the chunking used by the token verifier
(`tokenSched`), whether `os.Create` fails for its destination
(`createFails`), and the chunking/errors seen by the drain loop
(`drainSched`). -/
structure MimePart where
  formName : String
  fileName : String
  content : List Nat
  tokenSched : List Nat
  createFails : Bool
  drainSched : List (Option Nat)
deriving DecidableEq

/-- One result of `multipartReader.NextPart()` (uploader.go:183): a part,
or a non-EOF error; the end of the event list is `io.EOF`. -/
inductive PartEvent where
  | part (p : MimePart)
  | nextPartError
deriving DecidableEq

/-- An HTTP response emitted during the session: `http.Error` with a 5xx
or 4xx status, or the success form page served at the end. -/
inductive Response where
  | serverError (msg : String)
  | clientError (msg : String)
  | okPage
deriving DecidableEq

/-- What the session produced: the final state of the local
`isAuthorized` flag, the objects written to storage (path, bytes on
disk), and the responses emitted, in order. -/
structure SessionResult where
  isAuthorized : Bool
  files : List (String × List Nat)
  responses : List Response
deriving DecidableEq

/-- `checkUploadCookie` (uploader.go:142-147) on a part. -/
def checkUploadCookie (h : Uploader) (p : MimePart) : Bool :=
  valCheck h.BufferSize h.UploadCookie p.tokenSched p.content

/-- `bufio.NewWriter` default buffer size (uploader.go:51). -/
def bufioDefaultSize : Nat := 4096

/-- The part loop of `serveHTTPUploadPOST` (uploader.go:181-213): for each
part, a part whose form name is `"uploadCookie"` is run through the token
verifier (authorizing the session on success); otherwise a part carrying a
file name is drained to storage if the session is authorized, and rejected
with a 400 (stopping the session) if not; parts with no file name are
skipped.  A `NextPart` error stops the session with a 500; on `io.EOF` the
success page is served.  On a drain whose `os.Create` failed no object
exists; otherwise the object holds whatever the drain left on disk. -/
def uploadPOSTLoop (h : Uploader) : List PartEvent → Bool →
    List (String × List Nat) → List Response → SessionResult
  | [], isAuthorized, files, responses =>
      ⟨isAuthorized, files, responses ++ [Response.okPage]⟩
  | PartEvent.nextPartError :: _, isAuthorized, files, responses =>
      ⟨isAuthorized, files, responses ++ [Response.serverError "error getting a part"]⟩
  | PartEvent.part p :: rest, isAuthorized, files, responses =>
      if p.formName = "uploadCookie" then
        uploadPOSTLoop h rest
          (if checkUploadCookie h p then true else isAuthorized) files responses
      else if 0 < p.fileName.length then
        if isAuthorized then
          let d := serveHTTPUploadPOSTDrain h.BufferSize bufioDefaultSize
            p.createFails p.drainSched p.content
          match d.exit with
          | DrainExit.createError =>
              uploadPOSTLoop h rest isAuthorized files
                (responses ++ [Response.serverError "cannot write out file"])
          | DrainExit.readError =>
              uploadPOSTLoop h rest isAuthorized
                (files ++ [(h.HomeBucket ++ "/" ++ p.fileName, d.file)])
                (responses ++ [Response.serverError "error reading data"])
          | DrainExit.eofOk =>
              uploadPOSTLoop h rest isAuthorized
                (files ++ [(h.HomeBucket ++ "/" ++ p.fileName, d.file)]) responses
        else
          ⟨isAuthorized, files,
            responses ++ [Response.clientError "failed authorization for file"]⟩
      else uploadPOSTLoop h rest isAuthorized files responses

/-- `serveHTTPUploadPOST` (uploader.go:167-225): the session starts with
`isAuthorized := false`, no stored objects and no responses. -/
def serveHTTPUploadPOST (h : Uploader) (events : List PartEvent) : SessionResult :=
  uploadPOSTLoop h events false [] []

/-- Once the session is authorized it stays authorized, whatever parts
follow (including token parts that fail verification). -/
theorem uploadPOSTLoop_auth_mono (h : Uploader) :
    ∀ (events : List PartEvent) (files : List (String × List Nat))
      (resp : List Response),
      (uploadPOSTLoop h events true files resp).isAuthorized = true := by
  intro events
  induction events with
  | nil => intro files resp; rfl
  | cons e rest ih =>
    intro files resp
    cases e with
    | nextPartError => rfl
    | part p =>
      simp only [uploadPOSTLoop]
      split
      · split
        · exact ih _ _
        · exact ih _ _
      · split
        · split
          · split
            · exact ih _ _
            · exact ih _ _
            · exact ih _ _
          · exact absurd trivial (by assumption)
        · exact ih _ _

/-- Starting unauthorized, the flag can only become true through a part
whose field name is `"uploadCookie"` passing `checkUploadCookie`. -/
theorem uploadPOSTLoop_auth_source (h : Uploader) :
    ∀ (events : List PartEvent) (files : List (String × List Nat))
      (resp : List Response),
      (uploadPOSTLoop h events false files resp).isAuthorized = true →
      ∃ p, PartEvent.part p ∈ events ∧ p.formName = "uploadCookie"
        ∧ checkUploadCookie h p = true := by
  intro events
  induction events with
  | nil =>
    intro files resp hres
    exact absurd hres (by simp [uploadPOSTLoop])
  | cons e rest ih =>
    intro files resp hres
    cases e with
    | nextPartError => exact absurd hres (by simp [uploadPOSTLoop])
    | part p =>
      rw [uploadPOSTLoop] at hres
      by_cases h1 : p.formName = "uploadCookie"
      · rw [if_pos h1] at hres
        by_cases h2 : checkUploadCookie h p = true
        · exact ⟨p, by simp, h1, h2⟩
        · rw [if_neg h2] at hres
          obtain ⟨q, hq1, hq2, hq3⟩ := ih _ _ hres
          exact ⟨q, by simp [hq1], hq2, hq3⟩
      · rw [if_neg h1] at hres
        by_cases h3 : 0 < p.fileName.length
        · rw [if_pos h3, if_neg Bool.false_ne_true] at hres
          exact absurd hres (by simp)
        · rw [if_neg h3] at hres
          obtain ⟨q, hq1, hq2, hq3⟩ := ih _ _ hres
          exact ⟨q, by simp [hq1], hq2, hq3⟩

/-- C6: the session's authorized flag starts false
(`isAuthorized := false` at session entry), is monotone (once true it
stays true for the rest of the session, a failing second token part
included), and can only be raised by a part named `"uploadCookie"` that
passes the Token Verifier. -/
theorem C6_auth_flag_monotone (h : Uploader) :
    (∀ events : List PartEvent,
      serveHTTPUploadPOST h events = uploadPOSTLoop h events false [] [])
    ∧ (∀ (events : List PartEvent) (files : List (String × List Nat))
        (resp : List Response),
        (uploadPOSTLoop h events true files resp).isAuthorized = true)
    ∧ (∀ (events : List PartEvent) (files : List (String × List Nat))
        (resp : List Response),
        (uploadPOSTLoop h events false files resp).isAuthorized = true →
        ∃ p, PartEvent.part p ∈ events ∧ p.formName = "uploadCookie"
          ∧ checkUploadCookie h p = true) :=
  ⟨fun _ => rfl, uploadPOSTLoop_auth_mono h, uploadPOSTLoop_auth_source h⟩

/-- A concrete server configuration for witnesses and counterexamples:
2-byte cookie `[7, 8]`, buffer size 8. -/
def exampleUploader : Uploader :=
  { HomeBucket := "/tmp/uploader", UploadCookie := [7, 8], BufferSize := 8 }

/-- A token part carrying exactly the configured cookie. -/
def exampleTokenPart : MimePart :=
  { formName := "uploadCookie", fileName := "", content := [7, 8],
    tokenSched := [1, 1], createFails := false, drainSched := [] }

/-- A token part carrying a wrong cookie (fails verification). -/
def exampleBadTokenPart : MimePart :=
  { formName := "uploadCookie", fileName := "", content := [9],
    tokenSched := [1, 1], createFails := false, drainSched := [] }

/-- A file part whose destination cannot be created. -/
def exampleFailPart : MimePart :=
  { formName := "theFile", fileName := "a.txt", content := [1, 2, 3],
    tokenSched := [], createFails := true,
    drainSched := [some 9, some 9, some 9] }

/-- A file part that drains normally. -/
def exampleOkPart : MimePart :=
  { formName := "theFile", fileName := "b.txt", content := [4, 5],
    tokenSched := [], createFails := false, drainSched := [some 9, some 9] }

/-- Witness for C6: after a valid token part followed by a failing token
part, the session is still authorized. -/
theorem C6_auth_flag_monotone_witness :
    (uploadPOSTLoop exampleUploader
      [PartEvent.part exampleBadTokenPart] true [] []).isAuthorized = true :=
  (C6_auth_flag_monotone exampleUploader).2.1
    [PartEvent.part exampleBadTokenPart] [] []

/-- C3: a part carrying a file name met while the session is not
authorized makes the orchestrator emit the 400 client error and return at
once: the result does not depend on the remaining events `rest` (no
further part is read, even a later valid token), and the stored objects
are exactly those from before the part — no byte of it is stored. -/
theorem C3_unauthorized_file_rejected (h : Uploader) (p : MimePart)
    (hname : p.formName ≠ "uploadCookie") (hfile : 0 < p.fileName.length)
    (rest : List PartEvent) (files : List (String × List Nat))
    (resp : List Response) :
    uploadPOSTLoop h (PartEvent.part p :: rest) false files resp
      = ⟨false, files,
          resp ++ [Response.clientError "failed authorization for file"]⟩ := by
  rw [uploadPOSTLoop, if_neg hname, if_pos hfile, if_neg Bool.false_ne_true]

/-- Witness for C3: the file part is rejected although a valid token part
follows it in the same request. -/
theorem C3_unauthorized_file_rejected_witness :
    uploadPOSTLoop exampleUploader
        [PartEvent.part exampleOkPart, PartEvent.part exampleTokenPart] false [] []
      = ⟨false, [],
          [Response.clientError "failed authorization for file"]⟩ :=
  C3_unauthorized_file_rejected exampleUploader exampleOkPart
    (by decide) (by decide) [PartEvent.part exampleTokenPart] [] []

/-- C10: a part whose form-field name is `"uploadCookie"` is handled
entirely by the token branch — whatever its file name, the session just
runs the Token Verifier on it and moves on: no drain, nothing stored, no
response emitted for it. -/
theorem C10_token_field_priority (h : Uploader) (p : MimePart)
    (hp : p.formName = "uploadCookie") (rest : List PartEvent) (auth : Bool)
    (files : List (String × List Nat)) (resp : List Response) :
    uploadPOSTLoop h (PartEvent.part p :: rest) auth files resp
      = uploadPOSTLoop h rest
          (if checkUploadCookie h p then true else auth) files resp := by
  rw [uploadPOSTLoop, if_pos hp]

/-- Witness for C10: a cookie-named part that also carries a file name is
not stored. -/
theorem C10_token_field_priority_witness :
    uploadPOSTLoop exampleUploader
        [PartEvent.part { exampleTokenPart with fileName := "evil.txt" }] false [] []
      = uploadPOSTLoop exampleUploader []
          (if checkUploadCookie exampleUploader
              { exampleTokenPart with fileName := "evil.txt" }
            then true else false) [] [] :=
  C10_token_field_priority exampleUploader
    { exampleTokenPart with fileName := "evil.txt" } rfl [] false [] []

/-- Counterexample to C4: valid token, then a file part whose `os.Create`
fails, then another file part.  The claim says the session stops at the
storage error with no remaining part processed; the code reports the 500
and keeps going — the later part `b.txt` is drained and stored. -/
theorem C4_counterexample :
    serveHTTPUploadPOST exampleUploader
        [PartEvent.part exampleTokenPart, PartEvent.part exampleFailPart,
         PartEvent.part exampleOkPart]
      = ⟨true, [("/tmp/uploader" ++ "/" ++ "b.txt", [4, 5])],
          [Response.serverError "cannot write out file", Response.okPage]⟩
    ∧ ("/tmp/uploader" ++ "/" ++ "b.txt", [4, 5])
        ∈ (serveHTTPUploadPOST exampleUploader
            [PartEvent.part exampleTokenPart, PartEvent.part exampleFailPart,
             PartEvent.part exampleOkPart]).files := by
  constructor
  · decide
  · decide

/-- C4 as amended: when a file part's destination cannot be created the
orchestrator reports the 500 server error and stores nothing for that
part (the part is not read), but the session does NOT stop: processing
continues with the remaining parts. -/
theorem C4_amended_storage_error_continues (h : Uploader) (p : MimePart)
    (hname : p.formName ≠ "uploadCookie") (hfile : 0 < p.fileName.length)
    (hcf : p.createFails = true) (rest : List PartEvent)
    (files : List (String × List Nat)) (resp : List Response) :
    uploadPOSTLoop h (PartEvent.part p :: rest) true files resp
      = uploadPOSTLoop h rest true files
          (resp ++ [Response.serverError "cannot write out file"]) := by
  rw [uploadPOSTLoop, if_neg hname, if_pos hfile, if_pos rfl]
  simp [serveHTTPUploadPOSTDrain, hcf]

/-- Witness for the amended C4. -/
theorem C4_amended_storage_error_continues_witness :
    uploadPOSTLoop exampleUploader
        [PartEvent.part exampleFailPart, PartEvent.part exampleOkPart] true [] []
      = uploadPOSTLoop exampleUploader [PartEvent.part exampleOkPart] true []
          [Response.serverError "cannot write out file"] :=
  C4_amended_storage_error_continues exampleUploader exampleFailPart
    (by decide) (by decide) rfl [PartEvent.part exampleOkPart] [] []
